import Mathlib

/-!
# Dupli persistent IDs and the dupli parent finder

A shallow embedding of `source/blender/io/common/intern/dupli_persistent_id.cc`
(class `PersistentID`) and of the `DupliParentFinder` declared in
`dupli_parent_finder.hh`, followed by the properties proved about them.

Machine integers: a C++ `int` is an `Int` in the range `INT_MIN .. INT_MAX`
(the range is carried by `PIDArray`), a `uint64_t` is a `Nat` below `2 ^ 64`.
-/

namespace blender.io

/-! ## Data model -/

/-- The largest `int` (`<climits>`), used as the end-of-path sentinel. -/
def INT_MAX : Int := 2147483647

/-- The smallest `int` (`<climits>`). -/
def INT_MIN : Int := -2147483648

/-- Modelled from the spec: the constant `PersistentID::array_length_`, declared in
`IO_dupli_persistent_id.hh` (not among the sources); the capacity `K = 8`. -/
abbrev array_length_ : Nat := 8

/-- The type `PersistentID::PIDArray`, a `std::array<int, array_length_>`: exactly
`array_length_` slots, each holding an `int`. -/
structure PIDArray where
  slots : List Int
  size_eq : slots.length = array_length_
  is_int : ∀ v ∈ slots, INT_MIN ≤ v ∧ v ≤ INT_MAX

/-- Read `a[index]`. Every read of the source is in bounds; the value given to an
out-of-bounds index is never used. -/
def PIDArray.get (a : PIDArray) (index : Nat) : Int :=
  a.slots.getD index 0

/-- Write `a[index] = value`, for a value that is an `int`. -/
def PIDArray.set (a : PIDArray) (index : Nat) (value : Int)
    (hv : INT_MIN ≤ value ∧ value ≤ INT_MAX) : PIDArray :=
  ⟨a.slots.set index value, by rw [List.length_set]; exact a.size_eq, by
    intro v hmem
    rcases List.mem_or_eq_of_mem_set hmem with h | h
    · exact a.is_int v h
    · rw [h]; exact hv⟩

/-- The class `PersistentID`: its only data member is `persistent_id_`. -/
structure PersistentID where
  persistent_id_ : PIDArray

/-- The constructor `PersistentID::PersistentID()`. It assigns slot 0 only; the other
slots keep whatever the storage held, which is the argument `storage`. -/
def PersistentID.default (storage : PIDArray) : PersistentID :=
  ⟨storage.set 0 INT_MAX (by decide)⟩

/-- The constructor `PersistentID::PersistentID(const PIDArray &)`. -/
def PersistentID.of_values (persistent_id_values : PIDArray) : PersistentID :=
  ⟨persistent_id_values⟩

/-! ## `operator==` -/

/-- The loop of `operator==`, entered at `index` with `remaining` iterations left
(`remaining = array_length_ - index`). Falling out of the loop, by the bound or by
`break`, returns `true`. -/
def eq_loop (pid_a pid_b : PIDArray) : Nat → Nat → Bool
  | 0, _ => true
  | remaining + 1, index =>
    let pid_digit_a := pid_a.get index
    let pid_digit_b := pid_b.get index
    if pid_digit_a ≠ pid_digit_b then false
    else if pid_a.get index = INT_MAX then true
    else eq_loop pid_a pid_b remaining (index + 1)

/-- The free function `operator==(const PersistentID &, const PersistentID &)`. -/
def PersistentID.eq (persistent_id_a persistent_id_b : PersistentID) : Bool :=
  eq_loop persistent_id_a.persistent_id_ persistent_id_b.persistent_id_ array_length_ 0

instance : BEq PersistentID := ⟨PersistentID.eq⟩

/-! ## `PersistentID::hash` -/

/-- The conversion `uint64_t(value)` of an `int`: the value modulo `2 ^ 64`. -/
def uint64_t (value : Int) : Nat :=
  (value % 2 ^ 64).toNat

/-- The range-based loop of `PersistentID::hash` over the slots still to visit;
`hash * 33` wraps at `2 ^ 64`. -/
def hash_loop : List Int → Nat → Nat
  | [], hash => hash
  | value :: rest, hash =>
    if value = INT_MAX then hash
    else hash_loop rest ((hash * 33 % 2 ^ 64) ^^^ uint64_t value)

/-- The method `PersistentID::hash`. -/
def PersistentID.hash (p : PersistentID) : Nat :=
  hash_loop p.persistent_id_.slots 5381

/-! ## `PersistentID::is_from_same_instancer_as` -/

/-- The loop of `is_from_same_instancer_as`, entered at `index` with `remaining`
iterations left. -/
def same_instancer_loop (pid_a pid_b : PIDArray) : Nat → Nat → Bool
  | 0, _ => true
  | remaining + 1, index =>
    let pid_digit_a := pid_a.get index
    let pid_digit_b := pid_b.get index
    if pid_digit_a ≠ pid_digit_b then false
    else if pid_digit_a = INT_MAX then true
    else same_instancer_loop pid_a pid_b remaining (index + 1)

/-- The method `PersistentID::is_from_same_instancer_as`. The loop starts at index 1. -/
def PersistentID.is_from_same_instancer_as (p other : PersistentID) : Bool :=
  if p.persistent_id_.get 0 = INT_MAX ∨ other.persistent_id_.get 0 = INT_MAX then false
  else same_instancer_loop p.persistent_id_ other.persistent_id_ (array_length_ - 1) 1

/-! ## `PersistentID::instancer_pid` -/

/-- The copying loop of `instancer_pid`, entered at `index` with `remaining`
iterations left (`remaining = array_length_ - 1 - index`); it returns the array and
the value of `index` on leaving the loop. -/
def shift_loop (persistent_id_ : PIDArray) : Nat → Nat → PIDArray → PIDArray × Nat
  | 0, index, new_pid_values => (new_pid_values, index)
  | remaining + 1, index, new_pid_values =>
    shift_loop persistent_id_ remaining (index + 1)
      (new_pid_values.set index (persistent_id_.get (index + 1)) (by
        unfold PIDArray.get
        by_cases h : index + 1 < persistent_id_.slots.length
        · rw [List.getD_eq_getElem _ _ h]
          exact persistent_id_.is_int _ (List.getElem_mem h)
        · rw [List.getD_eq_default _ _ (by omega)]
          decide))

/-- The method `PersistentID::instancer_pid`. The argument `storage` is the content of
the uninitialised array the result is built in (`PersistentID()` in the first branch,
`PIDArray new_pid_values;` in the second). -/
def PersistentID.instancer_pid (p : PersistentID) (storage : PIDArray) : PersistentID :=
  if p.persistent_id_.get 0 = INT_MAX then PersistentID.default storage
  else
    let r := shift_loop p.persistent_id_ (array_length_ - 1) 0 storage
    PersistentID.of_values (r.1.set r.2 INT_MAX (by decide))

/-! ## `PersistentID::as_object_name_suffix` -/

/-- The call `fmt::format_to(fmt::appender(buf), "{}", value)` for an `int`: the decimal
rendering of `value` (a minus sign for a negative value, no padding) is appended to the
buffer. -/
def format_to_int (buf : String) (value : Int) : String :=
  buf ++ toString value

/-- The first loop of `as_object_name_suffix` ("find one past the last index"), entered at
`index` with `remaining = array_length_ - index`; it returns `index` on leaving the loop. -/
def find_end_loop (pid : PIDArray) : Nat → Nat → Nat
  | 0, index => index
  | remaining + 1, index =>
    if pid.get index < INT_MAX then find_end_loop pid remaining (index + 1) else index

/-- The second loop of `as_object_name_suffix` ("iterate backward"). The first argument
is the C++ `index` plus one, so `0` stands for `index = -1`, where `index >= 0` fails. -/
def backward_loop (pid : PIDArray) : Nat → String → String
  | 0, buf => buf
  | index + 1, buf =>
    let buf := format_to_int buf (pid.get index)
    let buf := if index > 0 then buf ++ "-" else buf
    backward_loop pid index buf

/-- The method `PersistentID::as_object_name_suffix`. The statement `--index` before the
second loop turns "one past the last index" into the index the loop starts at. -/
def PersistentID.as_object_name_suffix (p : PersistentID) : String :=
  let index := find_end_loop p.persistent_id_ array_length_ 0
  backward_loop p.persistent_id_ index ""

/-! ## `DupliParentFinder`
The header `dupli_parent_finder.hh` declares the class; the bodies of its methods, the
containers `blender::Map` and `blender::Set`, and the struct `DupliObject` are not among
the sources and are modelled from the specification. -/

/-- The identity of a real object (a `const Object *`). -/
abbrev Object := Nat

/-- Modelled from the spec: the struct `DupliObject` of `BKE_duplilist.hh` (not among the
sources), an instance record: `address` is the identity of the record (the handle
`const DupliObject *`), `ob` the real object it instances, `persistent_id` its path. -/
structure DupliObject where
  address : Nat
  ob : Object
  persistent_id : PIDArray

/-- The constructor `PersistentID::PersistentID(const DupliObject *)`: its loop copies
each of the `array_length_` slots of `dupli_ob->persistent_id`. -/
def PersistentID.of_dupli (dupli_ob : DupliObject) : PersistentID :=
  ⟨dupli_ob.persistent_id⟩

/-- Modelled from the spec: lookup in a `blender::Map` keyed by `PersistentID` (the
container is not among the sources), an exact-match key-value container; keys are
compared with `operator==`. -/
def map_lookup {V : Type} : List (PersistentID × V) → PersistentID → Option V
  | [], _ => none
  | (k, v) :: rest, key => if (k == key) = true then some v else map_lookup rest key

/-- Modelled from the spec: adding a handle to the set stored under a key of the
map-to-set container `instancer_pid_to_duplis_` (the container is not among the
sources); the set is created when the key is new. -/
def group_add : List (PersistentID × List DupliObject) → PersistentID → DupliObject →
    List (PersistentID × List DupliObject)
  | [], key, dupli_ob => [(key, [dupli_ob])]
  | (k, duplis) :: rest, key, dupli_ob =>
    if (k == key) = true then (k, dupli_ob :: duplis) :: rest
    else (k, duplis) :: group_add rest key dupli_ob

/-- The class `DupliParentFinder`: its three data members, as declared in the header
(`instanced_targets`, `path_to_instance`, `instancer_path_to_instances` in the
specification). -/
structure DupliParentFinder where
  dupli_set_ : List Object
  pid_to_dupli_ : List (PersistentID × DupliObject)
  instancer_pid_to_duplis_ : List (PersistentID × List DupliObject)

/-- A freshly constructed finder: the three containers are empty. -/
def DupliParentFinder.empty : DupliParentFinder :=
  ⟨[], [], []⟩

/-- The fault signalled by a registration. -/
inductive Fault where
  | duplicate_key (path : PersistentID)

/-- Modelled from the spec: the body of `DupliParentFinder::insert` (the file
`dupli_parent_finder.cc` is not among the sources), `register` in the specification:
it inserts the handle under its path into `pid_to_dupli_`, signalling a duplicate-key
condition when the path is already present, adds the handle to the set keyed by the
instancer path, and adds the real object to `dupli_set_`. The argument `storage` is
the uninitialised array in which `instancer_pid` builds its result. -/
def DupliParentFinder.insert (finder : DupliParentFinder) (dupli_ob : DupliObject)
    (storage : PIDArray) : Except Fault DupliParentFinder :=
  let dupli_pid := PersistentID.of_dupli dupli_ob
  match map_lookup finder.pid_to_dupli_ dupli_pid with
  | some _ => Except.error (Fault.duplicate_key dupli_pid)
  | none =>
    let instancer_pid := dupli_pid.instancer_pid storage
    Except.ok
      { dupli_set_ := dupli_ob.ob :: finder.dupli_set_
        pid_to_dupli_ := (dupli_pid, dupli_ob) :: finder.pid_to_dupli_
        instancer_pid_to_duplis_ :=
          group_add finder.instancer_pid_to_duplis_ instancer_pid dupli_ob }

/-- The registration pass over a batch: `insert` is called for each instance in turn,
each call with its own uninitialised storage; the pass stops at the first fault. -/
def DupliParentFinder.insert_all (finder : DupliParentFinder) :
    List (DupliObject × PIDArray) → Except Fault DupliParentFinder
  | [] => Except.ok finder
  | (dupli_ob, storage) :: rest =>
    match finder.insert dupli_ob storage with
    | Except.error fault => Except.error fault
    | Except.ok next => next.insert_all rest

/-- Modelled from the spec: the body of `DupliParentFinder::is_duplicated` (not among
the sources): membership of the object in `dupli_set_`. -/
def DupliParentFinder.is_duplicated (finder : DupliParentFinder) (object : Object) : Bool :=
  decide (object ∈ finder.dupli_set_)

/-- Modelled from the spec: the body of `DupliParentFinder::find_duplicated_parent` (not
among the sources), step 2 of the specification: the instance present in `pid_to_dupli_`
under a path equal to `parent_path`. -/
def DupliParentFinder.find_duplicated_parent (finder : DupliParentFinder)
    (parent_path : PersistentID) : Option DupliObject :=
  map_lookup finder.pid_to_dupli_ parent_path

/-- Modelled from the spec: the body of `DupliParentFinder::find_instancer` (not among
the sources), step 3 of the specification: the instance whose own path equals
`parent_path` exactly, found via `pid_to_dupli_`. -/
def DupliParentFinder.find_instancer (finder : DupliParentFinder)
    (parent_path : PersistentID) : Option DupliObject :=
  map_lookup finder.pid_to_dupli_ parent_path

/-- Modelled from the spec: the body of `DupliParentFinder::find_suitable_export_parent`
(not among the sources): no parent when the instancer path is empty (step 1); else the
duplicated-parent case (step 2), then the instancer case (step 3), else no parent
(step 4). The argument `storage` is the uninitialised array in which `instancer_pid`
builds its result. -/
def DupliParentFinder.find_suitable_export_parent (finder : DupliParentFinder)
    (dupli_ob : DupliObject) (storage : PIDArray) : Option DupliObject :=
  let parent_path := (PersistentID.of_dupli dupli_ob).instancer_pid storage
  if parent_path.persistent_id_.get 0 = INT_MAX then none
  else
    match finder.find_duplicated_parent parent_path with
    | some parent => some parent
    | none => finder.find_instancer parent_path

/-! ## Concrete paths and instances of the examples -/

/-- The paths of the examples: `[3,1]`, `[3,1]` with other padding, `[3,1,7]`, `[5,1]`,
`[2,0]`, `[0]`, `[4]`, the empty path with arbitrary padding, a path without sentinel. -/
def pid_3_1 : PersistentID :=
  ⟨⟨[3, 1, INT_MAX, INT_MAX, INT_MAX, INT_MAX, INT_MAX, INT_MAX], rfl, by decide⟩⟩

def pid_3_1_padded : PersistentID :=
  ⟨⟨[3, 1, INT_MAX, 9, -4, INT_MAX, 0, 12], rfl, by decide⟩⟩

def pid_3_1_7 : PersistentID :=
  ⟨⟨[3, 1, 7, INT_MAX, INT_MAX, INT_MAX, INT_MAX, INT_MAX], rfl, by decide⟩⟩

def pid_5_1 : PersistentID :=
  ⟨⟨[5, 1, INT_MAX, INT_MAX, INT_MAX, INT_MAX, INT_MAX, INT_MAX], rfl, by decide⟩⟩

def pid_2_0 : PersistentID :=
  ⟨⟨[2, 0, INT_MAX, INT_MAX, INT_MAX, INT_MAX, INT_MAX, INT_MAX], rfl, by decide⟩⟩

def pid_0 : PersistentID :=
  ⟨⟨[0, INT_MAX, INT_MAX, INT_MAX, INT_MAX, INT_MAX, INT_MAX, INT_MAX], rfl, by decide⟩⟩

def pid_4 : PersistentID :=
  ⟨⟨[4, INT_MAX, INT_MAX, INT_MAX, INT_MAX, INT_MAX, INT_MAX, INT_MAX], rfl, by decide⟩⟩

def pid_empty : PersistentID :=
  ⟨⟨[INT_MAX, INT_MAX, INT_MAX, INT_MAX, INT_MAX, INT_MAX, INT_MAX, INT_MAX], rfl, by decide⟩⟩

def pid_empty_padded : PersistentID :=
  ⟨⟨[INT_MAX, 6, 6, -1, INT_MAX, 2, 0, 5], rfl, by decide⟩⟩

def pid_full : PersistentID :=
  ⟨⟨[1, 2, 3, 4, 5, 6, 7, 8], rfl, by decide⟩⟩

/-- The path `[3,1]` written over arbitrary storage: slots 0, 1 and 2 are assigned
(`3`, `1`, sentinel), the slots after the sentinel keep the content of `padding`. -/
def pid_3_1_over (padding : PIDArray) : PersistentID :=
  ⟨((padding.set 0 3 (by decide)).set 1 1 (by decide)).set 2 INT_MAX (by decide)⟩

/-- Storage contents used where an example needs an uninitialised array. -/
def storage_junk : PIDArray :=
  ⟨[11, -7, 0, INT_MAX, 5, 5, -2147483648, 3], rfl, by decide⟩

/-- The instances of the end-to-end scenario: `A` at `[0]` instancing object 10, `B` at
`[2,0]` instancing object 11, and an instance at `[4]`. -/
def dupli_A : DupliObject := ⟨1, 10, pid_0.persistent_id_⟩

def dupli_B : DupliObject := ⟨2, 11, pid_2_0.persistent_id_⟩

def dupli_4 : DupliObject := ⟨3, 12, pid_4.persistent_id_⟩

/-- The finder of the end-to-end scenario after `insert(A)` then `insert(B)`. -/
def finder_A_B : DupliParentFinder :=
  match DupliParentFinder.empty.insert_all [(dupli_A, storage_junk), (dupli_B, storage_junk)] with
  | Except.ok finder => finder
  | Except.error _ => DupliParentFinder.empty

/-! ## Notions used in the statements -/

/-- The real indices of a run of slots: the slots before the first `INT_MAX`, or all
of them when there is no `INT_MAX`. -/
def real_indices_of (l : List Int) : List Int :=
  l.takeWhile (fun v => decide (v ≠ INT_MAX))

/-- The real-index part of a path. -/
def PersistentID.real_indices (p : PersistentID) : List Int :=
  real_indices_of p.persistent_id_.slots

/-- One step of the accumulator of `hash`. -/
def hash_step (hash : Nat) (value : Int) : Nat :=
  (hash * 33 % 2 ^ 64) ^^^ uint64_t value

/-- A path is empty when slot 0 holds the sentinel. -/
def PersistentID.is_empty (p : PersistentID) : Prop :=
  p.persistent_id_.get 0 = INT_MAX

instance (p : PersistentID) : Decidable p.is_empty :=
  inferInstanceAs (Decidable (p.persistent_id_.get 0 = INT_MAX))

/-- The path after `k` applications of `instancer_pid`; `storage k` is the content of the
uninitialised array in which application number `k` builds its result. -/
def instancer_pid_iter (storage : Nat → PIDArray) : Nat → PersistentID → PersistentID
  | 0, p => p
  | k + 1, p => (instancer_pid_iter storage k p).instancer_pid (storage k)

/-- The slots from the first `INT_MAX` on: the sentinel and the padding behind it. -/
def padding_of (l : List Int) : List Int :=
  l.dropWhile (fun v => decide (v ≠ INT_MAX))

/-- A path is well-formed when its real indices are followed by `INT_MAX` in all the
remaining slots: no slot after the first sentinel holds anything else. -/
def PersistentID.well_formed (p : PersistentID) : Prop :=
  ∀ v ∈ padding_of p.persistent_id_.slots, v = INT_MAX

instance (p : PersistentID) : Decidable p.well_formed :=
  inferInstanceAs (Decidable (∀ v ∈ padding_of p.persistent_id_.slots, v = INT_MAX))

/-- The depth of a path: the number of its real indices. -/
def PersistentID.depth (p : PersistentID) : Nat :=
  p.real_indices.length

/-- A second instance at path `[0]`, with other padding behind the sentinel. -/
def dupli_A_again : DupliObject :=
  ⟨7, 13, ⟨[0, INT_MAX, 4, 4, INT_MAX, -9, 1, 0], rfl, by decide⟩⟩

/-! ## Notions used in the proofs -/

/-- The number a run of decimal digit characters stands for. -/
def digits_value (l : List Char) : Nat :=
  l.foldl (fun acc c => acc * 10 + (c.toNat - 48)) 0

/-- The characters of the decimal rendering of an `int`. -/
def decimal_chars (value : Int) : List Char :=
  if value < 0 then '-' :: Nat.toDigits 10 value.natAbs else Nat.toDigits 10 value.toNat

/-- A run of characters that is empty or begins with the separator. -/
def starts_with_dash (r : List Char) : Prop :=
  r = [] ∨ ∃ t, r = '-' :: t

/-- The characters of the renderings of a list of indices joined by "-". -/
def suffix_chars : List Int → List Char
  | [] => []
  | v :: rest =>
    decimal_chars v ++
      (match rest with
      | [] => []
      | _ :: _ => '-' :: suffix_chars rest)

/-- No two entries of a map have equal keys. -/
def distinct_keys {V : Type} (m : List (PersistentID × V)) : Prop :=
  m.Pairwise (fun e1 e2 => (e1.1 == e2.1) = false)

/-- No two instances of a batch have equal paths. -/
def distinct_paths (batch : List DupliObject) : Prop :=
  batch.Pairwise (fun d e => (PersistentID.of_dupli d == PersistentID.of_dupli e) = false)

/-- The entries `pid_to_dupli_` holds for a list of instances. -/
def entries_of (batch : List DupliObject) : List (PersistentID × DupliObject) :=
  batch.map (fun d => (PersistentID.of_dupli d, d))

/-! # Properties -/

/-! ## Lemmas on arrays and loops -/

theorem PIDArray.get_is_int (a : PIDArray) (index : Nat) :
    INT_MIN ≤ a.get index ∧ a.get index ≤ INT_MAX := by
  unfold PIDArray.get
  by_cases h : index < a.slots.length
  · rw [List.getD_eq_getElem _ _ h]
    exact a.is_int _ (List.getElem_mem h)
  · rw [List.getD_eq_default _ _ (by omega)]
    decide

theorem real_indices_of_nil : real_indices_of [] = [] := rfl

theorem real_indices_of_cons_max (l : List Int) : real_indices_of (INT_MAX :: l) = [] := by
  simp [real_indices_of]

theorem real_indices_of_cons_ne (v : Int) (l : List Int) (h : v ≠ INT_MAX) :
    real_indices_of (v :: l) = v :: real_indices_of l := by
  simp [real_indices_of, h]

theorem PIDArray.drop_cons (a : PIDArray) (i : Nat) (h : i < array_length_) :
    a.slots.drop i = a.get i :: a.slots.drop (i + 1) := by
  have hl : i < a.slots.length := by rw [a.size_eq]; exact h
  rw [List.drop_eq_getElem_cons hl, PIDArray.get, List.getD_eq_getElem _ _ hl]

theorem PIDArray.drop_length (a : PIDArray) : a.slots.drop array_length_ = [] := by
  apply List.drop_of_length_le
  rw [a.size_eq]

theorem eq_loop_iff (a b : PIDArray) :
    ∀ n i, n + i = array_length_ →
      (eq_loop a b n i = true ↔
        real_indices_of (a.slots.drop i) = real_indices_of (b.slots.drop i)) := by
  intro n
  induction n with
  | zero =>
    intro i h
    have hi : i = array_length_ := by omega
    subst hi
    simp [eq_loop, PIDArray.drop_length]
  | succ n ih =>
    intro i h
    have hi : i < array_length_ := by omega
    rw [a.drop_cons i hi, b.drop_cons i hi]
    simp only [eq_loop]
    by_cases h1 : a.get i = b.get i
    · by_cases h2 : a.get i = INT_MAX
      · have h3 : b.get i = INT_MAX := by rw [← h1]; exact h2
        simp [h1, h3, real_indices_of_cons_max]
      · have h3 : b.get i ≠ INT_MAX := by rw [← h1]; exact h2
        rw [real_indices_of_cons_ne _ _ h2, real_indices_of_cons_ne _ _ h3]
        simp only [h1, h3, ne_eq, not_true_eq_false, if_false]
        rw [ih (i + 1) (by omega)]
        simp
    · simp only [ne_eq, h1, not_false_eq_true, if_true]
      constructor
      · intro hf; exact absurd hf (by simp)
      · intro he
        exfalso
        by_cases h2 : a.get i = INT_MAX
        · by_cases h3 : b.get i = INT_MAX
          · exact h1 (h2.trans h3.symm)
          · rw [h2, real_indices_of_cons_max, real_indices_of_cons_ne _ _ h3] at he
            exact absurd he (by simp)
        · by_cases h3 : b.get i = INT_MAX
          · rw [h3, real_indices_of_cons_max, real_indices_of_cons_ne _ _ h2] at he
            exact absurd he (by simp)
          · rw [real_indices_of_cons_ne _ _ h2, real_indices_of_cons_ne _ _ h3] at he
            exact h1 (List.cons.inj he).1

theorem PersistentID.eq_iff_real_indices (a b : PersistentID) :
    PersistentID.eq a b = true ↔ a.real_indices = b.real_indices := by
  have h := eq_loop_iff a.persistent_id_ b.persistent_id_ array_length_ 0 rfl
  simpa [PersistentID.eq, PersistentID.real_indices] using h

theorem hash_loop_eq_foldl (l : List Int) :
    ∀ hash, hash_loop l hash = (real_indices_of l).foldl hash_step hash := by
  induction l with
  | nil => intro hash; rfl
  | cons v rest ih =>
    intro hash
    by_cases h : v = INT_MAX
    · subst h
      simp [hash_loop, real_indices_of_cons_max]
    · rw [real_indices_of_cons_ne _ _ h]
      simp only [hash_loop, h, if_false, List.foldl_cons]
      rw [ih]
      rfl

theorem PersistentID.hash_eq_foldl (p : PersistentID) :
    p.hash = p.real_indices.foldl hash_step 5381 :=
  hash_loop_eq_foldl _ _

/-! ## Equality and hashing -/

/-- C1: paths that are equal under `operator==` have the same hash, whatever the slots
after the first sentinel hold. -/
theorem C1_eq_implies_hash_eq (a b : PersistentID) (h : (a == b) = true) :
    a.hash = b.hash := by
  have hr : a.real_indices = b.real_indices := (PersistentID.eq_iff_real_indices a b).1 h
  rw [PersistentID.hash_eq_foldl, PersistentID.hash_eq_foldl, hr]

theorem C1_eq_implies_hash_eq_witness :
    (pid_3_1 == pid_3_1_padded) = true ∧ pid_3_1.hash = pid_3_1_padded.hash :=
  ⟨by decide, C1_eq_implies_hash_eq pid_3_1 pid_3_1_padded (by decide)⟩

/-- C2: two paths are equal under `operator==` exactly when their real-index parts (the
slots before the first sentinel, or all slots when there is none) are the same sequence;
the slots after the first sentinel play no part. -/
theorem C2_eq_iff_same_real_indices (a b : PersistentID) :
    (a == b) = true ↔ a.real_indices = b.real_indices :=
  PersistentID.eq_iff_real_indices a b

/-- The examples of C2: `[3,1]` equals `[3,1]` with any padding after the sentinel and
differs from `[3,1,7]`. -/
theorem C2_examples :
    (∀ padding : PIDArray, (pid_3_1 == pid_3_1_over padding) = true) ∧
    (pid_3_1 == pid_3_1_7) = false := by
  constructor
  · intro padding
    rw [C2_eq_iff_same_real_indices]
    obtain ⟨l, hl, hint⟩ := padding
    match l, hl with
    | [_, _, _, _, _, _, _, _], _ =>
      simp [PersistentID.real_indices, pid_3_1, pid_3_1_over, PIDArray.set, real_indices_of,
        INT_MAX]
  · decide

/-- C10: the hash is the left fold of `h := (h * 33 mod 2^64) XOR uint64_t(value)` over
the real indices in slot order, started at 5381; the empty path hashes to 5381 and
`[3,1]` to 5859943. -/
theorem C10_hash_is_fold (p : PersistentID) :
    p.hash = p.real_indices.foldl (fun h value => (h * 33 % 2 ^ 64) ^^^ uint64_t value) 5381 ∧
    pid_empty.hash = 5381 ∧ pid_empty_padded.hash = 5381 ∧
    pid_3_1.hash = 5859943 ∧ pid_3_1_padded.hash = 5859943 :=
  ⟨PersistentID.hash_eq_foldl p, by decide, by decide, by decide, by decide⟩

/-! ## Same instancer -/

theorem same_instancer_loop_eq (a b : PIDArray) :
    ∀ n i, same_instancer_loop a b n i = eq_loop a b n i := by
  intro n
  induction n with
  | zero => intro i; rfl
  | succ n ih => intro i; simp only [same_instancer_loop, eq_loop, ih]

/-- C3: `is_from_same_instancer_as` is false as soon as slot 0 of either path is the
sentinel; otherwise it is true exactly when the slots from index 1 on hold the same
sentinel-terminated sequence, whatever slot 0 holds. -/
theorem C3_same_instancer (a b : PersistentID) :
    ((a.persistent_id_.get 0 = INT_MAX ∨ b.persistent_id_.get 0 = INT_MAX) →
      a.is_from_same_instancer_as b = false) ∧
    (a.persistent_id_.get 0 ≠ INT_MAX → b.persistent_id_.get 0 ≠ INT_MAX →
      (a.is_from_same_instancer_as b = true ↔
        real_indices_of (a.persistent_id_.slots.drop 1) =
          real_indices_of (b.persistent_id_.slots.drop 1))) := by
  constructor
  · intro h
    simp [PersistentID.is_from_same_instancer_as, h]
  · intro ha hb
    have h := eq_loop_iff a.persistent_id_ b.persistent_id_ (array_length_ - 1) 1 rfl
    rw [← h, ← same_instancer_loop_eq]
    simp [PersistentID.is_from_same_instancer_as, ha, hb]

theorem C3_same_instancer_witness :
    (pid_3_1 == pid_5_1) = false ∧ pid_3_1.is_from_same_instancer_as pid_5_1 = true ∧
    pid_empty.is_from_same_instancer_as pid_empty = false :=
  ⟨by decide,
    ((C3_same_instancer pid_3_1 pid_5_1).2 (by decide) (by decide)).2 (by decide),
    (C3_same_instancer pid_empty pid_empty).1 (Or.inl (by decide))⟩

/-! ## The instancer path -/

theorem PersistentID.instancer_pid_slots (p : PersistentID) (storage : PIDArray)
    (h : ¬ p.is_empty) :
    (p.instancer_pid storage).persistent_id_.slots =
      p.persistent_id_.slots.drop 1 ++ [INT_MAX] := by
  obtain ⟨⟨l, hl, hint⟩⟩ := p
  obtain ⟨m, hm, hmint⟩ := storage
  match l, hl, m, hm with
  | [_, _, _, _, _, _, _, _], _, [_, _, _, _, _, _, _, _], _ =>
    simp only [PersistentID.is_empty, PIDArray.get, List.getD_cons_zero] at h
    simp [PersistentID.instancer_pid, h, shift_loop, PIDArray.set, PIDArray.get,
      PersistentID.of_values]

theorem PersistentID.default_is_empty (storage : PIDArray) :
    (PersistentID.default storage).is_empty := by
  obtain ⟨m, hm, hmint⟩ := storage
  match m, hm with
  | [_, _, _, _, _, _, _, _], _ =>
    simp [PersistentID.is_empty, PersistentID.default, PIDArray.set, PIDArray.get]

theorem PersistentID.is_empty_iff (p : PersistentID) :
    p.is_empty ↔ p.real_indices = [] := by
  obtain ⟨⟨l, hl, hint⟩⟩ := p
  match l, hl with
  | [x, _, _, _, _, _, _, _], _ =>
    by_cases h : x = INT_MAX
    · simp [PersistentID.is_empty, PersistentID.real_indices, PIDArray.get, real_indices_of, h]
    · simp [PersistentID.is_empty, PersistentID.real_indices, PIDArray.get, real_indices_of, h]

theorem PersistentID.eq_of_is_empty (a b : PersistentID) (ha : a.is_empty) (hb : b.is_empty) :
    (a == b) = true := by
  rw [PersistentID.is_empty_iff] at ha hb
  exact (PersistentID.eq_iff_real_indices a b).2 (ha.trans hb.symm)

theorem PIDArray.get_eq_getElem (a : PIDArray) (i : Nat) (h : i < a.slots.length) :
    a.get i = a.slots[i] := by
  rw [PIDArray.get, List.getD_eq_getElem _ _ h]

/-- C4: the instancer path of an empty path is the default-constructed (empty) path;
otherwise slot `i` of the result is slot `i + 1` of the path for `i < K - 1`, and
slot `K - 1` of the result is the sentinel. -/
theorem C4_instancer_pid (p : PersistentID) (storage : PIDArray) :
    (p.persistent_id_.get 0 = INT_MAX →
      p.instancer_pid storage = PersistentID.default storage ∧
      (p.instancer_pid storage).persistent_id_.get 0 = INT_MAX ∧
      ∀ other : PIDArray, (p.instancer_pid storage == PersistentID.default other) = true) ∧
    (p.persistent_id_.get 0 ≠ INT_MAX →
      (∀ i, i < array_length_ - 1 →
        (p.instancer_pid storage).persistent_id_.get i = p.persistent_id_.get (i + 1)) ∧
      (p.instancer_pid storage).persistent_id_.get (array_length_ - 1) = INT_MAX) := by
  constructor
  · intro h
    have h1 : p.instancer_pid storage = PersistentID.default storage := by
      simp [PersistentID.instancer_pid, h]
    rw [h1]
    exact ⟨rfl, PersistentID.default_is_empty storage, fun other =>
      PersistentID.eq_of_is_empty _ _ (PersistentID.default_is_empty storage)
        (PersistentID.default_is_empty other)⟩
  · intro h
    have hs := PersistentID.instancer_pid_slots p storage h
    have hl : p.persistent_id_.slots.length = 8 := p.persistent_id_.size_eq
    have hr : (p.instancer_pid storage).persistent_id_.slots.length = 8 :=
      (p.instancer_pid storage).persistent_id_.size_eq
    constructor
    · intro i hi
      have hi7 : i < 7 := hi
      have hi1 : i < (p.instancer_pid storage).persistent_id_.slots.length := by omega
      have hi2 : i + 1 < p.persistent_id_.slots.length := by omega
      have hi3 : i < (p.persistent_id_.slots.drop 1).length := by
        rw [List.length_drop]; omega
      rw [PIDArray.get_eq_getElem _ _ hi1, PIDArray.get_eq_getElem _ _ hi2]
      simp only [hs]
      rw [List.getElem_append_left hi3]
      simp [Nat.add_comm]
    · have hi1 : array_length_ - 1 < (p.instancer_pid storage).persistent_id_.slots.length := by
        rw [hr]; decide
      have hi3 : (p.persistent_id_.slots.drop 1).length ≤ array_length_ - 1 := by
        rw [List.length_drop, hl]
      rw [PIDArray.get_eq_getElem _ _ hi1]
      simp only [hs]
      rw [List.getElem_append_right hi3]
      simp

theorem C4_instancer_pid_witness :
    (pid_2_0.instancer_pid storage_junk == pid_0) = true ∧
    (pid_4.instancer_pid storage_junk == pid_empty) = true ∧
    (pid_2_0.instancer_pid storage_junk).persistent_id_.get 0 = pid_2_0.persistent_id_.get 1 ∧
    pid_empty_padded.instancer_pid storage_junk = PersistentID.default storage_junk :=
  ⟨by decide, by decide,
    ((C4_instancer_pid pid_2_0 storage_junk).2 (by decide)).1 0 (by decide),
    ((C4_instancer_pid pid_empty_padded storage_junk).1 (by decide)).1⟩

/-! ## Repeated projection -/

theorem real_indices_of_append_max (l : List Int) :
    real_indices_of (l ++ [INT_MAX]) = real_indices_of l := by
  induction l with
  | nil => simp [real_indices_of]
  | cons v rest ih =>
    by_cases h : v = INT_MAX
    · subst h
      rw [List.cons_append, real_indices_of_cons_max, real_indices_of_cons_max]
    · rw [List.cons_append, real_indices_of_cons_ne _ _ h, real_indices_of_cons_ne _ _ h, ih]

theorem real_indices_of_length_le (l : List Int) : (real_indices_of l).length ≤ l.length :=
  (List.takeWhile_sublist _).length_le

theorem PersistentID.real_indices_instancer_pid (p : PersistentID) (storage : PIDArray) :
    (p.instancer_pid storage).real_indices = p.real_indices.tail := by
  by_cases h : p.is_empty
  · have h1 : p.instancer_pid storage = PersistentID.default storage := by
      simp only [PersistentID.is_empty] at h
      simp [PersistentID.instancer_pid, h]
    rw [h1, (PersistentID.is_empty_iff _).1 (PersistentID.default_is_empty storage),
      (PersistentID.is_empty_iff _).1 h]
    rfl
  · have hs := PersistentID.instancer_pid_slots p storage h
    have hd := p.persistent_id_.drop_cons 0 (by decide)
    rw [List.drop_zero] at hd
    simp only [PersistentID.real_indices, hs]
    rw [real_indices_of_append_max, hd]
    simp only [PersistentID.is_empty] at h
    rw [real_indices_of_cons_ne _ _ h]
    simp

theorem real_indices_instancer_pid_iter (storage : Nat → PIDArray) (p : PersistentID) :
    ∀ k, (instancer_pid_iter storage k p).real_indices = p.real_indices.drop k := by
  intro k
  induction k with
  | zero => simp [instancer_pid_iter]
  | succ k ih =>
    simp only [instancer_pid_iter]
    rw [PersistentID.real_indices_instancer_pid, ih, List.tail_drop]

/-- C9: for every path, `K = 8` or more applications of `instancer_pid` give the empty
path (slot 0 is the sentinel, and the result is `==` to `PersistentID()`), so the empty
path is reached after at most `K` applications; the empty path is a fixed point. -/
theorem C9_instancer_pid_reaches_empty (p : PersistentID) (storage : Nat → PIDArray) :
    (∃ k, k ≤ array_length_ ∧ (instancer_pid_iter storage k p).is_empty) ∧
    (∀ k, array_length_ ≤ k →
      (instancer_pid_iter storage k p).is_empty ∧
      ∀ other : PIDArray,
        (instancer_pid_iter storage k p == PersistentID.default other) = true) ∧
    (∀ (q : PersistentID) (s : PIDArray), q.is_empty →
      (q.instancer_pid s).is_empty ∧ (q.instancer_pid s == q) = true) := by
  have hall : ∀ k, array_length_ ≤ k → (instancer_pid_iter storage k p).is_empty := by
    intro k hk
    rw [PersistentID.is_empty_iff, real_indices_instancer_pid_iter]
    apply List.drop_of_length_le
    have h1 := real_indices_of_length_le p.persistent_id_.slots
    rw [p.persistent_id_.size_eq] at h1
    exact le_trans h1 hk
  refine ⟨⟨array_length_, le_refl _, hall _ (le_refl _)⟩, ?_, ?_⟩
  · intro k hk
    exact ⟨hall k hk, fun other =>
      PersistentID.eq_of_is_empty _ _ (hall k hk) (PersistentID.default_is_empty other)⟩
  · intro q s hq
    have h1 : q.instancer_pid s = PersistentID.default s := by
      simp only [PersistentID.is_empty] at hq
      simp [PersistentID.instancer_pid, hq]
    rw [h1]
    exact ⟨PersistentID.default_is_empty s,
      PersistentID.eq_of_is_empty _ _ (PersistentID.default_is_empty s) hq⟩

theorem C9_instancer_pid_reaches_empty_witness :
    (instancer_pid_iter (fun _ => storage_junk) 8 pid_full).is_empty ∧
    ¬ (instancer_pid_iter (fun _ => storage_junk) 7 pid_full).is_empty ∧
    (pid_empty_padded.instancer_pid storage_junk).is_empty :=
  ⟨((C9_instancer_pid_reaches_empty pid_full (fun _ => storage_junk)).2.1 8 (by decide)).1,
    by decide,
    ((C9_instancer_pid_reaches_empty pid_full (fun _ => storage_junk)).2.2
      pid_empty_padded storage_junk (by decide)).1⟩

/-! ## The name suffix -/

theorem find_end_loop_eq (pid : PIDArray) :
    ∀ n i, n + i = array_length_ →
      find_end_loop pid n i = i + (real_indices_of (pid.slots.drop i)).length := by
  intro n
  induction n with
  | zero =>
    intro i h
    have hi : i = array_length_ := by omega
    subst hi
    simp [find_end_loop, PIDArray.drop_length, real_indices_of]
  | succ n ih =>
    intro i h
    have hi : i < array_length_ := by omega
    rw [pid.drop_cons i hi]
    simp only [find_end_loop]
    by_cases h1 : pid.get i = INT_MAX
    · rw [h1, real_indices_of_cons_max]
      simp
    · have h2 : pid.get i < INT_MAX := lt_of_le_of_ne (pid.get_is_int i).2 h1
      rw [real_indices_of_cons_ne _ _ h1, if_pos h2, ih (i + 1) (by omega)]
      simp only [List.length_cons]
      omega

theorem take_real_indices_length (l : List Int) :
    l.take (real_indices_of l).length = real_indices_of l := by
  induction l with
  | nil => rfl
  | cons v rest ih =>
    by_cases h : v = INT_MAX
    · subst h
      rw [real_indices_of_cons_max]
      rfl
    · rw [real_indices_of_cons_ne _ _ h, List.length_cons, List.take_succ_cons, ih]

theorem intercalate_go_append (s : String) (l : List String) :
    ∀ acc x : String, String.intercalate.go (acc ++ x) s l = acc ++ String.intercalate.go x s l := by
  induction l with
  | nil => intro acc x; rfl
  | cons a rest ih =>
    intro acc x
    simp only [String.intercalate.go]
    rw [← ih acc (x ++ s ++ a)]
    simp only [String.append_assoc]

theorem intercalate_cons_cons (s a b : String) (rest : List String) :
    s.intercalate (a :: b :: rest) = a ++ s ++ s.intercalate (b :: rest) := by
  simp only [String.intercalate, String.intercalate.go]
  rw [intercalate_go_append]

theorem backward_loop_eq (pid : PIDArray) :
    ∀ k, k ≤ array_length_ → ∀ buf : String,
      backward_loop pid k buf =
        buf ++ "-".intercalate (((pid.slots.take k).reverse).map toString) := by
  intro k
  induction k with
  | zero =>
    intro _ buf
    simp [backward_loop, String.intercalate]
  | succ k ih =>
    intro hk buf
    have hlen : k < pid.slots.length := by rw [pid.size_eq]; omega
    have htake : (pid.slots.take (k + 1)).reverse = pid.get k :: (pid.slots.take k).reverse := by
      rw [List.take_succ, List.getElem?_eq_getElem hlen, PIDArray.get_eq_getElem _ _ hlen]
      simp
    rw [htake]
    simp only [backward_loop, format_to_int]
    rw [ih (by omega)]
    cases k with
    | zero => simp [String.intercalate, String.intercalate.go]
    | succ j =>
      have hj : j < pid.slots.length := by omega
      have htake2 : (pid.slots.take (j + 1)).reverse =
          pid.get j :: (pid.slots.take j).reverse := by
        rw [List.take_succ, List.getElem?_eq_getElem hj, PIDArray.get_eq_getElem _ _ hj]
        simp
      rw [htake2]
      simp only [List.map_cons, intercalate_cons_cons, Nat.succ_pos, if_true,
        String.append_assoc, gt_iff_lt, Nat.zero_lt_succ]

theorem PersistentID.as_object_name_suffix_eq (p : PersistentID) :
    p.as_object_name_suffix = "-".intercalate (p.real_indices.reverse.map toString) := by
  have h1 := find_end_loop_eq p.persistent_id_ array_length_ 0 rfl
  rw [List.drop_zero, Nat.zero_add] at h1
  have h2 : (real_indices_of p.persistent_id_.slots).length ≤ array_length_ := by
    have := real_indices_of_length_le p.persistent_id_.slots
    rw [p.persistent_id_.size_eq] at this
    exact this
  simp only [PersistentID.as_object_name_suffix, h1]
  rw [backward_loop_eq _ _ h2, take_real_indices_length]
  simp [PersistentID.real_indices]

/-- C7: the name suffix is the decimal renderings of the real indices (the slots before
the first sentinel), from the last real slot down to slot 0, joined by "-"; the empty
path renders as the empty string and `[3,1]` as "1-3". -/
theorem C7_name_suffix (p : PersistentID) :
    p.as_object_name_suffix = "-".intercalate (p.real_indices.reverse.map toString) ∧
    pid_3_1.as_object_name_suffix = "1-3" ∧ pid_3_1_padded.as_object_name_suffix = "1-3" ∧
    pid_empty.as_object_name_suffix = "" ∧ pid_empty_padded.as_object_name_suffix = "" ∧
    pid_full.as_object_name_suffix = "8-7-6-5-4-3-2-1" :=
  ⟨PersistentID.as_object_name_suffix_eq p, by decide, by decide, by decide, by decide,
    by decide⟩

/-! ## Decimal rendering is injective -/

theorem digitChar_value (d : Nat) (h : d < 10) : (Nat.digitChar d).toNat - 48 = d := by
  interval_cases d <;> rfl

theorem digitChar_isDigit (d : Nat) (h : d < 10) : (Nat.digitChar d).isDigit = true := by
  interval_cases d <;> rfl

theorem toDigitsCore_append (f : Nat) :
    ∀ (n : Nat) (ds : List Char),
      Nat.toDigitsCore 10 f n ds = Nat.toDigitsCore 10 f n [] ++ ds := by
  induction f with
  | zero => intro n ds; simp [Nat.toDigitsCore]
  | succ f ih =>
    intro n ds
    simp only [Nat.toDigitsCore]
    by_cases h : n / 10 = 0
    · simp [h]
    · simp only [h, if_false]
      rw [ih (n / 10) (Nat.digitChar (n % 10) :: ds), ih (n / 10) [Nat.digitChar (n % 10)]]
      simp

theorem toDigitsCore_succ (f n : Nat) :
    Nat.toDigitsCore 10 (f + 1) n [] =
      (if n / 10 = 0 then [] else Nat.toDigitsCore 10 f (n / 10) []) ++
        [Nat.digitChar (n % 10)] := by
  simp only [Nat.toDigitsCore]
  by_cases h : n / 10 = 0
  · simp [h]
  · simp only [h, if_false]
    rw [toDigitsCore_append]

theorem digits_value_toDigitsCore (f : Nat) :
    ∀ n, n < f → digits_value (Nat.toDigitsCore 10 f n []) = n := by
  induction f with
  | zero => intro n h; omega
  | succ f ih =>
    intro n h
    rw [toDigitsCore_succ]
    have hd := digitChar_value (n % 10) (Nat.mod_lt _ (by decide))
    by_cases h0 : n / 10 = 0
    · simp only [h0, if_true, List.nil_append, digits_value, List.foldl_cons, List.foldl_nil, hd]
      omega
    · have hlt : n / 10 < f := by omega
      have hv := ih (n / 10) hlt
      simp only [digits_value] at hv
      simp only [h0, if_false, digits_value, List.foldl_append, List.foldl_cons, List.foldl_nil,
        hd, hv]
      omega

theorem isDigit_toDigitsCore (f : Nat) :
    ∀ n, ∀ c ∈ Nat.toDigitsCore 10 f n [], c.isDigit = true := by
  induction f with
  | zero => intro n c hc; simp [Nat.toDigitsCore] at hc
  | succ f ih =>
    intro n c hc
    rw [toDigitsCore_succ] at hc
    rcases List.mem_append.1 hc with h | h
    · by_cases h0 : n / 10 = 0
      · simp [h0] at h
      · simp only [h0, if_false] at h
        exact ih _ c h
    · rw [List.mem_singleton] at h
      rw [h]
      exact digitChar_isDigit _ (Nat.mod_lt _ (by decide))

theorem toDigits_ne_nil (n : Nat) : Nat.toDigits 10 n ≠ [] := by
  unfold Nat.toDigits
  rw [toDigitsCore_succ]
  simp

theorem toDigits_isDigit (n : Nat) : ∀ c ∈ Nat.toDigits 10 n, c.isDigit = true :=
  isDigit_toDigitsCore (n + 1) n

theorem toDigits_injective (n m : Nat) (h : Nat.toDigits 10 n = Nat.toDigits 10 m) : n = m := by
  have hn := digits_value_toDigitsCore (n + 1) n (Nat.lt_succ_self n)
  have hm := digits_value_toDigitsCore (m + 1) m (Nat.lt_succ_self m)
  unfold Nat.toDigits at h
  rw [h, hm] at hn
  exact hn.symm

theorem toString_int_data (value : Int) : (toString value).data = decimal_chars value := by
  cases value with
  | ofNat m =>
    have h : ¬ (Int.ofNat m < 0) := by simp
    simp only [decimal_chars, h, if_false]
    rfl
  | negSucc m =>
    have h : Int.negSucc m < 0 := Int.negSucc_lt_zero m
    simp only [decimal_chars, h, if_true]
    rfl

theorem digits_split_unique (d1 : List Char) :
    ∀ (d2 r1 r2 : List Char), (∀ c ∈ d1, c.isDigit = true) → (∀ c ∈ d2, c.isDigit = true) →
      starts_with_dash r1 → starts_with_dash r2 → d1 ++ r1 = d2 ++ r2 →
      d1 = d2 ∧ r1 = r2 := by
  induction d1 with
  | nil =>
    intro d2 r1 r2 _ h2 hr1 _ he
    cases d2 with
    | nil => exact ⟨rfl, he⟩
    | cons c d2 =>
      exfalso
      rcases hr1 with h | ⟨t, h⟩
      · rw [h] at he; simp at he
      · rw [h] at he
        simp only [List.nil_append, List.cons_append, List.cons.injEq] at he
        have hc := h2 c (List.mem_cons_self _ _)
        rw [← he.1] at hc
        exact absurd hc (by decide)
  | cons c d1 ih =>
    intro d2 r1 r2 h1 h2 hr1 hr2 he
    cases d2 with
    | nil =>
      exfalso
      rcases hr2 with h | ⟨t, h⟩
      · rw [h] at he; simp at he
      · rw [h] at he
        simp only [List.nil_append, List.cons_append, List.cons.injEq] at he
        have hc := h1 c (List.mem_cons_self _ _)
        rw [he.1] at hc
        exact absurd hc (by decide)
    | cons c2 d2 =>
      simp only [List.cons_append, List.cons.injEq] at he
      have hrec := ih d2 r1 r2 (fun x hx => h1 x (List.mem_cons_of_mem _ hx))
        (fun x hx => h2 x (List.mem_cons_of_mem _ hx)) hr1 hr2 he.2
      exact ⟨by rw [he.1, hrec.1], hrec.2⟩

theorem decimal_chars_split_unique (x y : Int) (r1 r2 : List Char)
    (hr1 : starts_with_dash r1) (hr2 : starts_with_dash r2)
    (he : decimal_chars x ++ r1 = decimal_chars y ++ r2) : x = y ∧ r1 = r2 := by
  unfold decimal_chars at he
  by_cases hx : x < 0
  · by_cases hy : y < 0
    · simp only [hx, hy, if_true, List.cons_append, List.cons.injEq, true_and] at he
      have h := digits_split_unique _ _ r1 r2 (toDigits_isDigit _) (toDigits_isDigit _) hr1 hr2 he
      have hn := toDigits_injective _ _ h.1
      exact ⟨by omega, h.2⟩
    · exfalso
      simp only [hx, hy, if_true, if_false, List.cons_append] at he
      cases hd : Nat.toDigits 10 y.toNat with
      | nil => exact toDigits_ne_nil _ hd
      | cons c t =>
        have hc := toDigits_isDigit y.toNat c (by rw [hd]; exact List.mem_cons_self _ _)
        rw [hd] at he
        simp only [List.cons_append, List.cons.injEq] at he
        rw [← he.1] at hc
        exact absurd hc (by decide)
  · by_cases hy : y < 0
    · exfalso
      simp only [hx, hy, if_true, if_false, List.cons_append] at he
      cases hd : Nat.toDigits 10 x.toNat with
      | nil => exact toDigits_ne_nil _ hd
      | cons c t =>
        have hc := toDigits_isDigit x.toNat c (by rw [hd]; exact List.mem_cons_self _ _)
        rw [hd] at he
        simp only [List.cons_append, List.cons.injEq] at he
        rw [he.1] at hc
        exact absurd hc (by decide)
    · simp only [hx, hy, if_false] at he
      have h := digits_split_unique _ _ r1 r2 (toDigits_isDigit _) (toDigits_isDigit _) hr1 hr2 he
      have hn := toDigits_injective _ _ h.1
      exact ⟨by omega, h.2⟩

theorem decimal_chars_ne_nil (x : Int) : decimal_chars x ≠ [] := by
  unfold decimal_chars
  by_cases hx : x < 0
  · simp [hx]
  · simp only [hx, if_false]
    exact toDigits_ne_nil _

theorem suffix_chars_tail_dash (rest : List Int) :
    starts_with_dash
      (match rest with
      | [] => []
      | _ :: _ => '-' :: suffix_chars rest) := by
  cases rest with
  | nil => exact Or.inl rfl
  | cons w t => exact Or.inr ⟨_, rfl⟩

theorem suffix_chars_injective (l1 : List Int) :
    ∀ l2, suffix_chars l1 = suffix_chars l2 → l1 = l2 := by
  induction l1 with
  | nil =>
    intro l2 h
    cases l2 with
    | nil => rfl
    | cons v rest =>
      exfalso
      simp only [suffix_chars] at h
      have h2 := List.append_eq_nil.1 h.symm
      exact decimal_chars_ne_nil v h2.1
  | cons v1 rest1 ih =>
    intro l2 h
    cases l2 with
    | nil =>
      exfalso
      simp only [suffix_chars] at h
      have h2 := List.append_eq_nil.1 h
      exact decimal_chars_ne_nil v1 h2.1
    | cons v2 rest2 =>
      simp only [suffix_chars] at h
      have hs := decimal_chars_split_unique v1 v2 _ _ (suffix_chars_tail_dash rest1)
        (suffix_chars_tail_dash rest2) h
      have hrest : rest1 = rest2 := by
        have h2 := hs.2
        cases rest1 with
        | nil =>
          cases rest2 with
          | nil => rfl
          | cons w2 t2 => simp at h2
        | cons w1 t1 =>
          cases rest2 with
          | nil => simp at h2
          | cons w2 t2 =>
            simp only [List.cons.injEq, true_and] at h2
            exact ih _ h2
      rw [hs.1, hrest]

theorem intercalate_data (l : List Int) :
    ("-".intercalate (l.map toString)).data = suffix_chars l := by
  induction l with
  | nil => rfl
  | cons v rest ih =>
    cases rest with
    | nil =>
      simp [String.intercalate, String.intercalate.go, suffix_chars, toString_int_data]
    | cons w t =>
      rw [List.map_cons, List.map_cons, intercalate_cons_cons]
      rw [List.map_cons] at ih
      simp only [String.data_append, ih, toString_int_data, suffix_chars]
      simp

/-- C8: two paths with the same name suffix are equal under `operator==`; the slots may
hold any `int`, negative ones included. -/
theorem C8_name_suffix_collision_free (a b : PersistentID)
    (h : a.as_object_name_suffix = b.as_object_name_suffix) : (a == b) = true := by
  rw [PersistentID.as_object_name_suffix_eq, PersistentID.as_object_name_suffix_eq] at h
  have hd := congrArg String.data h
  rw [intercalate_data, intercalate_data] at hd
  have hr := suffix_chars_injective _ _ hd
  exact (PersistentID.eq_iff_real_indices a b).2 (List.reverse_injective hr)

theorem C8_name_suffix_collision_free_witness :
    pid_3_1.as_object_name_suffix = pid_3_1_padded.as_object_name_suffix ∧
    (pid_3_1 == pid_3_1_padded) = true :=
  ⟨by decide, C8_name_suffix_collision_free pid_3_1 pid_3_1_padded (by decide)⟩

/-! ## The parent finder -/

theorem PersistentID.eq_symm (a b : PersistentID) (h : (a == b) = true) : (b == a) = true :=
  (PersistentID.eq_iff_real_indices b a).2 ((PersistentID.eq_iff_real_indices a b).1 h).symm

theorem PersistentID.eq_trans (a b c : PersistentID) (h1 : (a == b) = true)
    (h2 : (b == c) = true) : (a == c) = true :=
  (PersistentID.eq_iff_real_indices a c).2
    (((PersistentID.eq_iff_real_indices a b).1 h1).trans
      ((PersistentID.eq_iff_real_indices b c).1 h2))

theorem map_lookup_eq_none {V : Type} (m : List (PersistentID × V)) (key : PersistentID) :
    map_lookup m key = none ↔ ∀ e ∈ m, (e.1 == key) = false := by
  induction m with
  | nil => simp [map_lookup]
  | cons e rest ih =>
    obtain ⟨k, v⟩ := e
    by_cases h : (k == key) = true
    · simp [map_lookup, h]
    · have hf : (k == key) = false := by simpa using h
      simp only [map_lookup, List.mem_cons, forall_eq_or_imp, hf, true_and,
        Bool.false_eq_true, if_false]
      exact ih

theorem map_lookup_mem {V : Type} (m : List (PersistentID × V)) (key : PersistentID) (v : V)
    (h : map_lookup m key = some v) : ∃ k, (k, v) ∈ m ∧ (k == key) = true := by
  induction m with
  | nil => simp [map_lookup] at h
  | cons e rest ih =>
    obtain ⟨k, w⟩ := e
    by_cases hk : (k == key) = true
    · simp only [map_lookup, hk, if_true, Option.some.injEq] at h
      exact ⟨k, by rw [h]; exact List.mem_cons_self _ _, hk⟩
    · simp only [map_lookup, hk, if_false] at h
      obtain ⟨k2, hm, he⟩ := ih h
      exact ⟨k2, List.mem_cons_of_mem _ hm, he⟩

theorem map_lookup_of_mem {V : Type} (m : List (PersistentID × V)) (key k : PersistentID)
    (v : V) (hd : distinct_keys m) (hm : (k, v) ∈ m) (hk : (k == key) = true) :
    map_lookup m key = some v := by
  induction m with
  | nil => simp at hm
  | cons e rest ih =>
    obtain ⟨k0, v0⟩ := e
    have hd2 := List.pairwise_cons.1 hd
    rcases List.mem_cons.1 hm with h | h
    · have h1 : k = k0 := congrArg Prod.fst h
      have h2 : v = v0 := congrArg Prod.snd h
      subst h1
      subst h2
      simp [map_lookup, hk]
    · have hne : (k0 == k) = false := hd2.1 (k, v) h
      have hk0 : ¬ (k0 == key) = true := by
        intro hk0
        have := PersistentID.eq_trans k0 key k hk0 (PersistentID.eq_symm k key hk)
        rw [hne] at this
        exact Bool.false_ne_true this
      simp only [map_lookup, hk0, if_false]
      exact ih hd2.2 h

theorem insert_ok (finder next : DupliParentFinder) (dupli_ob : DupliObject)
    (storage : PIDArray) (h : finder.insert dupli_ob storage = Except.ok next) :
    map_lookup finder.pid_to_dupli_ (PersistentID.of_dupli dupli_ob) = none ∧
    next.pid_to_dupli_ = (PersistentID.of_dupli dupli_ob, dupli_ob) :: finder.pid_to_dupli_ ∧
    next.dupli_set_ = dupli_ob.ob :: finder.dupli_set_ := by
  unfold DupliParentFinder.insert at h
  cases hl : map_lookup finder.pid_to_dupli_ (PersistentID.of_dupli dupli_ob) with
  | some found => simp [hl] at h
  | none =>
    simp only [hl, Except.ok.injEq] at h
    rw [← h]
    exact ⟨rfl, rfl, rfl⟩

theorem insert_of_fresh (finder : DupliParentFinder) (dupli_ob : DupliObject)
    (storage : PIDArray)
    (h : map_lookup finder.pid_to_dupli_ (PersistentID.of_dupli dupli_ob) = none) :
    ∃ next, finder.insert dupli_ob storage = Except.ok next := by
  unfold DupliParentFinder.insert
  simp [h]

theorem insert_all_ok (calls : List (DupliObject × PIDArray)) :
    ∀ finder final : DupliParentFinder, finder.insert_all calls = Except.ok final →
      distinct_keys finder.pid_to_dupli_ →
      final.pid_to_dupli_ =
        entries_of (calls.map Prod.fst).reverse ++ finder.pid_to_dupli_ ∧
      final.dupli_set_ =
        ((calls.map Prod.fst).reverse.map DupliObject.ob) ++ finder.dupli_set_ ∧
      distinct_keys final.pid_to_dupli_ := by
  induction calls with
  | nil =>
    intro finder final h hd
    simp only [DupliParentFinder.insert_all, Except.ok.injEq] at h
    rw [← h]
    exact ⟨by simp [entries_of], by simp, hd⟩
  | cons c rest ih =>
    intro finder final h hd
    obtain ⟨dupli_ob, storage⟩ := c
    simp only [DupliParentFinder.insert_all] at h
    cases hi : finder.insert dupli_ob storage with
    | error fault => simp [hi] at h
    | ok next =>
      simp only [hi] at h
      obtain ⟨hfresh, hmap, hset⟩ := insert_ok finder next dupli_ob storage hi
      have hdn : distinct_keys next.pid_to_dupli_ := by
        rw [hmap]
        refine List.pairwise_cons.2 ⟨?_, hd⟩
        intro e he
        have h1 := (map_lookup_eq_none _ _).1 hfresh e he
        cases h2 : (PersistentID.of_dupli dupli_ob == e.1) with
        | false => rfl
        | true =>
          have h3 := PersistentID.eq_symm _ _ h2
          rw [h1] at h3
          exact absurd h3 Bool.false_ne_true
      obtain ⟨r1, r2, r3⟩ := ih next final h hdn
      refine ⟨?_, ?_, r3⟩
      · rw [r1, hmap]
        simp [entries_of]
      · rw [r2, hset]
        simp

theorem insert_all_of_distinct (calls : List (DupliObject × PIDArray)) :
    ∀ finder : DupliParentFinder, distinct_paths (calls.map Prod.fst) →
      (∀ c ∈ calls, map_lookup finder.pid_to_dupli_ (PersistentID.of_dupli c.1) = none) →
      ∃ final, finder.insert_all calls = Except.ok final := by
  induction calls with
  | nil => intro finder _ _; exact ⟨finder, rfl⟩
  | cons c rest ih =>
    intro finder hd hfresh
    obtain ⟨dupli_ob, storage⟩ := c
    obtain ⟨next, hn⟩ := insert_of_fresh finder dupli_ob storage
      (hfresh (dupli_ob, storage) (List.mem_cons_self _ _))
    obtain ⟨_, hmap, _⟩ := insert_ok finder next dupli_ob storage hn
    simp only [List.map_cons, distinct_paths, List.pairwise_cons] at hd
    have hrest : ∀ c ∈ rest,
        map_lookup next.pid_to_dupli_ (PersistentID.of_dupli c.1) = none := by
      intro c hc
      rw [hmap]
      have h1 : (PersistentID.of_dupli dupli_ob == PersistentID.of_dupli c.1) = false :=
        hd.1 c.1 (List.mem_map_of_mem Prod.fst hc)
      simp only [map_lookup, h1, Bool.false_eq_true, if_false]
      exact hfresh c (List.mem_cons_of_mem _ hc)
    obtain ⟨final, hf⟩ := ih next hd.2 hrest
    refine ⟨final, ?_⟩
    simp only [DupliParentFinder.insert_all, hn]
    exact hf

theorem map_lookup_congr {V : Type} (m1 m2 : List (PersistentID × V))
    (key1 key2 : PersistentID) (hd2 : distinct_keys m2)
    (hmem : ∀ e, e ∈ m1 → e ∈ m2) (hmem2 : ∀ e, e ∈ m2 → e ∈ m1)
    (hk : (key1 == key2) = true) : map_lookup m1 key1 = map_lookup m2 key2 := by
  cases h1 : map_lookup m1 key1 with
  | none =>
    symm
    rw [map_lookup_eq_none]
    intro e he
    have h2 := (map_lookup_eq_none m1 key1).1 h1 e (hmem2 e he)
    cases h3 : (e.1 == key2) with
    | false => rfl
    | true =>
      have h4 := PersistentID.eq_trans e.1 key2 key1 h3 (PersistentID.eq_symm _ _ hk)
      rw [h2] at h4
      exact absurd h4 Bool.false_ne_true
  | some v =>
    symm
    obtain ⟨k, hm, he⟩ := map_lookup_mem m1 key1 v h1
    exact map_lookup_of_mem m2 key2 k v hd2 (hmem _ hm) (PersistentID.eq_trans _ _ _ he hk)

theorem find_suitable_export_parent_eq (finder : DupliParentFinder) (dupli_ob : DupliObject)
    (storage : PIDArray) :
    finder.find_suitable_export_parent dupli_ob storage =
      if ((PersistentID.of_dupli dupli_ob).instancer_pid storage).is_empty then none
      else map_lookup finder.pid_to_dupli_
        ((PersistentID.of_dupli dupli_ob).instancer_pid storage) := by
  unfold DupliParentFinder.find_suitable_export_parent
  simp only [PersistentID.is_empty]
  by_cases h : ((PersistentID.of_dupli dupli_ob).instancer_pid storage).persistent_id_.get 0
      = INT_MAX
  · simp only [h, if_true]
  · simp only [h, if_false, DupliParentFinder.find_duplicated_parent,
      DupliParentFinder.find_instancer]
    cases map_lookup finder.pid_to_dupli_
      ((PersistentID.of_dupli dupli_ob).instancer_pid storage) <;> rfl

theorem mem_entries_of (batch : List DupliObject) (e : PersistentID × DupliObject) :
    e ∈ entries_of batch ↔ ∃ d ∈ batch, e = (PersistentID.of_dupli d, d) := by
  simp only [entries_of, List.mem_map]
  constructor
  · rintro ⟨d, hd, he⟩; exact ⟨d, hd, he.symm⟩
  · rintro ⟨d, hd, he⟩; exact ⟨d, hd, he.symm⟩

/-- C5: after a registration pass that succeeded, `find_suitable_export_parent` returns no
parent when the instancer path of the queried instance is empty; otherwise it returns the
inserted instance whose own path equals the instancer path when there is one, and no
parent when there is none. -/
theorem C5_find_suitable_export_parent (calls : List (DupliObject × PIDArray))
    (finder : DupliParentFinder)
    (h : DupliParentFinder.empty.insert_all calls = Except.ok finder)
    (dupli_ob : DupliObject) (storage : PIDArray) :
    (((PersistentID.of_dupli dupli_ob).instancer_pid storage).is_empty →
      finder.find_suitable_export_parent dupli_ob storage = none) ∧
    (¬ ((PersistentID.of_dupli dupli_ob).instancer_pid storage).is_empty →
      ∀ d ∈ calls.map Prod.fst,
        (PersistentID.of_dupli d == (PersistentID.of_dupli dupli_ob).instancer_pid storage)
          = true →
        finder.find_suitable_export_parent dupli_ob storage = some d) ∧
    (¬ ((PersistentID.of_dupli dupli_ob).instancer_pid storage).is_empty →
      (∀ d ∈ calls.map Prod.fst,
        (PersistentID.of_dupli d == (PersistentID.of_dupli dupli_ob).instancer_pid storage)
          = false) →
      finder.find_suitable_export_parent dupli_ob storage = none) := by
  obtain ⟨hmap, _, hdist⟩ := insert_all_ok calls DupliParentFinder.empty finder h
    List.Pairwise.nil
  simp only [DupliParentFinder.empty, List.append_nil] at hmap
  rw [find_suitable_export_parent_eq]
  refine ⟨fun he => by simp only [he, if_true], ?_, ?_⟩
  · intro hne d hd heq
    simp only [hne, if_false]
    apply map_lookup_of_mem _ _ (PersistentID.of_dupli d) d hdist _ heq
    rw [hmap, mem_entries_of]
    exact ⟨d, List.mem_reverse.2 hd, rfl⟩
  · intro hne hnone
    simp only [hne, if_false]
    rw [map_lookup_eq_none]
    intro e he
    rw [hmap, mem_entries_of] at he
    obtain ⟨d, hd, hed⟩ := he
    rw [hed]
    exact hnone d (List.mem_reverse.1 hd)

theorem C5_find_suitable_export_parent_witness :
    DupliParentFinder.empty.insert_all [(dupli_A, storage_junk), (dupli_B, storage_junk)]
      = Except.ok finder_A_B ∧
    finder_A_B.find_suitable_export_parent dupli_B storage_junk = some dupli_A ∧
    finder_A_B.find_suitable_export_parent dupli_4 storage_junk = none ∧
    finder_A_B.find_suitable_export_parent dupli_A storage_junk = none :=
  ⟨rfl,
    (C5_find_suitable_export_parent [(dupli_A, storage_junk), (dupli_B, storage_junk)]
      finder_A_B rfl dupli_B storage_junk).2.1 (by decide) dupli_A
      (List.mem_cons_self _ _) (by decide),
    (C5_find_suitable_export_parent [(dupli_A, storage_junk), (dupli_B, storage_junk)]
      finder_A_B rfl dupli_4 storage_junk).1 (by decide),
    (C5_find_suitable_export_parent [(dupli_A, storage_junk), (dupli_B, storage_junk)]
      finder_A_B rfl dupli_A storage_junk).1 (by decide)⟩

theorem distinct_paths_perm (l1 l2 : List DupliObject) (hp : l1.Perm l2)
    (hd : distinct_paths l1) : distinct_paths l2 := by
  refine (hp.pairwise_iff ?_).1 hd
  intro x y hxy
  cases h : (PersistentID.of_dupli y == PersistentID.of_dupli x) with
  | false => rfl
  | true =>
    have h2 := PersistentID.eq_symm _ _ h
    rw [hxy] at h2
    exact absurd h2 Bool.false_ne_true

/-- C6: for a batch with pairwise distinct paths, registration succeeds in every order,
and `is_duplicated` and `find_suitable_export_parent` give the same results after any two
orders of the `insert` calls. -/
theorem C6_order_independence (calls1 calls2 : List (DupliObject × PIDArray))
    (hperm : (calls1.map Prod.fst).Perm (calls2.map Prod.fst))
    (hdist : distinct_paths (calls1.map Prod.fst)) :
    ∃ f1 f2, DupliParentFinder.empty.insert_all calls1 = Except.ok f1 ∧
      DupliParentFinder.empty.insert_all calls2 = Except.ok f2 ∧
      (∀ object, f1.is_duplicated object = f2.is_duplicated object) ∧
      (∀ dupli_ob s1 s2, f1.find_suitable_export_parent dupli_ob s1 =
        f2.find_suitable_export_parent dupli_ob s2) := by
  have hdist2 := distinct_paths_perm _ _ hperm hdist
  obtain ⟨f1, h1⟩ := insert_all_of_distinct calls1 DupliParentFinder.empty hdist
    (fun _ _ => rfl)
  obtain ⟨f2, h2⟩ := insert_all_of_distinct calls2 DupliParentFinder.empty hdist2
    (fun _ _ => rfl)
  obtain ⟨m1, s1, _⟩ := insert_all_ok calls1 DupliParentFinder.empty f1 h1 List.Pairwise.nil
  obtain ⟨m2, s2, d2⟩ := insert_all_ok calls2 DupliParentFinder.empty f2 h2 List.Pairwise.nil
  simp only [DupliParentFinder.empty, List.append_nil] at m1 m2 s1 s2
  refine ⟨f1, f2, h1, h2, ?_, ?_⟩
  · intro object
    simp only [DupliParentFinder.is_duplicated, s1, s2]
    have hm : object ∈ List.map DupliObject.ob (calls1.map Prod.fst).reverse ↔
        object ∈ List.map DupliObject.ob (calls2.map Prod.fst).reverse := by
      constructor
      · intro hx
        obtain ⟨d, hd, ho⟩ := List.mem_map.1 hx
        exact List.mem_map.2
          ⟨d, List.mem_reverse.2 (hperm.mem_iff.1 (List.mem_reverse.1 hd)), ho⟩
      · intro hx
        obtain ⟨d, hd, ho⟩ := List.mem_map.1 hx
        exact List.mem_map.2
          ⟨d, List.mem_reverse.2 (hperm.mem_iff.2 (List.mem_reverse.1 hd)), ho⟩
    exact decide_eq_decide.2 hm
  · intro dupli_ob st1 st2
    rw [find_suitable_export_parent_eq, find_suitable_export_parent_eq]
    have hr : ((PersistentID.of_dupli dupli_ob).instancer_pid st1).real_indices =
        ((PersistentID.of_dupli dupli_ob).instancer_pid st2).real_indices := by
      rw [PersistentID.real_indices_instancer_pid, PersistentID.real_indices_instancer_pid]
    have he : ((PersistentID.of_dupli dupli_ob).instancer_pid st1).is_empty ↔
        ((PersistentID.of_dupli dupli_ob).instancer_pid st2).is_empty := by
      rw [PersistentID.is_empty_iff, PersistentID.is_empty_iff, hr]
    by_cases hemp : ((PersistentID.of_dupli dupli_ob).instancer_pid st1).is_empty
    · simp only [hemp, he.1 hemp, if_true]
    · have hemp2 : ¬ ((PersistentID.of_dupli dupli_ob).instancer_pid st2).is_empty :=
        fun hx => hemp (he.2 hx)
      simp only [hemp, hemp2, if_false]
      apply map_lookup_congr _ _ _ _ d2
      · intro e hm
        rw [m1, mem_entries_of] at hm
        obtain ⟨d, hd, hed⟩ := hm
        rw [m2, mem_entries_of]
        exact ⟨d, List.mem_reverse.2 (hperm.mem_iff.1 (List.mem_reverse.1 hd)), hed⟩
      · intro e hm
        rw [m2, mem_entries_of] at hm
        obtain ⟨d, hd, hed⟩ := hm
        rw [m1, mem_entries_of]
        exact ⟨d, List.mem_reverse.2 (hperm.mem_iff.2 (List.mem_reverse.1 hd)), hed⟩
      · exact (PersistentID.eq_iff_real_indices _ _).2 hr

theorem C6_order_independence_witness :
    ∃ f1 f2,
      DupliParentFinder.empty.insert_all [(dupli_A, storage_junk), (dupli_B, storage_junk)]
        = Except.ok f1 ∧
      DupliParentFinder.empty.insert_all [(dupli_B, pid_full.persistent_id_), (dupli_A, storage_junk)]
        = Except.ok f2 ∧
      (∀ object, f1.is_duplicated object = f2.is_duplicated object) ∧
      (∀ dupli_ob s1 s2, f1.find_suitable_export_parent dupli_ob s1 =
        f2.find_suitable_export_parent dupli_ob s2) :=
  C6_order_independence [(dupli_A, storage_junk), (dupli_B, storage_junk)]
    [(dupli_B, pid_full.persistent_id_), (dupli_A, storage_junk)]
    (List.Perm.swap dupli_B dupli_A [])
    (List.pairwise_cons.2 ⟨by
      intro e he
      rw [List.mem_singleton.1 he]
      decide, List.pairwise_cons.2 ⟨by intro e he; simp at he, List.Pairwise.nil⟩⟩)

/-! ## Duplicate registration -/

theorem insert_all_append (l1 l2 : List (DupliObject × PIDArray)) :
    ∀ finder : DupliParentFinder,
      finder.insert_all (l1 ++ l2) =
        match finder.insert_all l1 with
        | Except.error fault => Except.error fault
        | Except.ok next => next.insert_all l2 := by
  induction l1 with
  | nil => intro finder; rfl
  | cons c rest ih =>
    intro finder
    obtain ⟨dupli_ob, storage⟩ := c
    simp only [List.cons_append, DupliParentFinder.insert_all]
    cases finder.insert dupli_ob storage with
    | error fault => rfl
    | ok next => exact ih next

/-- C11: after a registration pass that succeeded, inserting an instance whose path is
equal under `operator==` to the path of an instance of the pass is answered by the
duplicate-key fault, also when it is the last call of a longer pass; the finder still
maps that path to the instance registered before. -/
theorem C11_duplicate_insert_fault (calls : List (DupliObject × PIDArray))
    (finder : DupliParentFinder)
    (h : DupliParentFinder.empty.insert_all calls = Except.ok finder)
    (previous : DupliObject) (hprev : previous ∈ calls.map Prod.fst)
    (dupli_ob : DupliObject) (storage : PIDArray)
    (heq : (PersistentID.of_dupli dupli_ob == PersistentID.of_dupli previous) = true) :
    finder.insert dupli_ob storage =
      Except.error (Fault.duplicate_key (PersistentID.of_dupli dupli_ob)) ∧
    DupliParentFinder.empty.insert_all (calls ++ [(dupli_ob, storage)]) =
      Except.error (Fault.duplicate_key (PersistentID.of_dupli dupli_ob)) ∧
    map_lookup finder.pid_to_dupli_ (PersistentID.of_dupli dupli_ob) = some previous ∧
    map_lookup finder.pid_to_dupli_ (PersistentID.of_dupli previous) = some previous := by
  obtain ⟨hmap, _, hdist⟩ := insert_all_ok calls DupliParentFinder.empty finder h
    List.Pairwise.nil
  simp only [DupliParentFinder.empty, List.append_nil] at hmap
  have hmem : (PersistentID.of_dupli previous, previous) ∈ finder.pid_to_dupli_ := by
    rw [hmap, mem_entries_of]
    exact ⟨previous, List.mem_reverse.2 hprev, rfl⟩
  have hl1 : map_lookup finder.pid_to_dupli_ (PersistentID.of_dupli dupli_ob) = some previous :=
    map_lookup_of_mem _ _ _ previous hdist hmem (PersistentID.eq_symm _ _ heq)
  have hl2 : map_lookup finder.pid_to_dupli_ (PersistentID.of_dupli previous) = some previous :=
    map_lookup_of_mem _ _ _ previous hdist hmem
      ((PersistentID.eq_iff_real_indices _ _).2 rfl)
  have hins : finder.insert dupli_ob storage =
      Except.error (Fault.duplicate_key (PersistentID.of_dupli dupli_ob)) := by
    unfold DupliParentFinder.insert
    simp only [hl1]
  refine ⟨hins, ?_, hl1, hl2⟩
  rw [insert_all_append, h]
  simp only [DupliParentFinder.insert_all, hins]

theorem C11_duplicate_insert_fault_witness :
    (PersistentID.of_dupli dupli_A_again == PersistentID.of_dupli dupli_A) = true ∧
    finder_A_B.insert dupli_A_again storage_junk =
      Except.error (Fault.duplicate_key (PersistentID.of_dupli dupli_A_again)) ∧
    map_lookup finder_A_B.pid_to_dupli_ (PersistentID.of_dupli dupli_A_again) = some dupli_A :=
  ⟨by decide,
    (C11_duplicate_insert_fault [(dupli_A, storage_junk), (dupli_B, storage_junk)]
      finder_A_B rfl dupli_A (List.mem_cons_self _ _) dupli_A_again storage_junk
      (by decide)).1,
    (C11_duplicate_insert_fault [(dupli_A, storage_junk), (dupli_B, storage_junk)]
      finder_A_B rfl dupli_A (List.mem_cons_self _ _) dupli_A_again storage_junk
      (by decide)).2.2.1⟩

/-! ## The default path and well-formedness -/

theorem PersistentID.default_slots (storage : PIDArray) :
    (PersistentID.default storage).persistent_id_.slots = INT_MAX :: storage.slots.drop 1 := by
  obtain ⟨m, hm, hmint⟩ := storage
  match m, hm with
  | [_, _, _, _, _, _, _, _], _ => simp [PersistentID.default, PIDArray.set]

theorem padding_of_cons_ne (v : Int) (l : List Int) (h : v ≠ INT_MAX) :
    padding_of (v :: l) = padding_of l := by
  simp [padding_of, h]

theorem padding_of_cons_max (l : List Int) : padding_of (INT_MAX :: l) = INT_MAX :: l := by
  simp [padding_of]

theorem padding_of_append_max (l : List Int) :
    padding_of (l ++ [INT_MAX]) = padding_of l ++ [INT_MAX] := by
  induction l with
  | nil => simp [padding_of]
  | cons v rest ih =>
    by_cases h : v = INT_MAX
    · subst h
      rw [List.cons_append, padding_of_cons_max, padding_of_cons_max, List.cons_append]
    · rw [List.cons_append, padding_of_cons_ne _ _ h, padding_of_cons_ne _ _ h, ih]

/-- C12 (as amended): the default-constructed path has the sentinel in slot 0, so it has
no real index and is equal under `operator==` to the path whose slots are all `INT_MAX`;
the constructor assigns no other slot, so every slot after slot 0 keeps the content the
storage had. -/
theorem C12_default_sets_slot_zero (storage : PIDArray) :
    (PersistentID.default storage).persistent_id_.get 0 = INT_MAX ∧
    (PersistentID.default storage).real_indices = [] ∧
    (PersistentID.default storage == pid_empty) = true ∧
    (PersistentID.default storage).persistent_id_.slots.drop 1 = storage.slots.drop 1 := by
  refine ⟨PersistentID.default_is_empty storage,
    (PersistentID.is_empty_iff _).1 (PersistentID.default_is_empty storage),
    PersistentID.eq_of_is_empty _ _ (PersistentID.default_is_empty storage) (by decide), ?_⟩
  rw [PersistentID.default_slots]
  rfl

/-- C12 (as stated) fails: built in storage that held `[11,-7,0,...]`, the
default-constructed path holds `-7` in slot 1, not the sentinel. -/
theorem C12_default_not_all_sentinel :
    (PersistentID.default storage_junk).persistent_id_.get 1 = -7 ∧
    ¬ (∀ v ∈ (PersistentID.default storage_junk).persistent_id_.slots, v = INT_MAX) := by
  decide

/-- C13 (as amended): the instancer path of a well-formed non-empty path is well-formed and
one less deep; the default-constructed path and the instancer path of an empty path have
depth 0. -/
theorem C13_well_formed_instancer_pid (p : PersistentID) (storage : PIDArray) :
    (PersistentID.default storage).depth = 0 ∧
    (p.is_empty → (p.instancer_pid storage).depth = 0) ∧
    (p.well_formed → ¬ p.is_empty →
      (p.instancer_pid storage).well_formed ∧
      (p.instancer_pid storage).depth + 1 = p.depth) := by
  have hdepth : (p.instancer_pid storage).depth = p.depth - 1 := by
    simp only [PersistentID.depth, PersistentID.real_indices_instancer_pid, List.length_tail]
  refine ⟨?_, ?_, ?_⟩
  · simp only [PersistentID.depth,
      (PersistentID.is_empty_iff _).1 (PersistentID.default_is_empty storage), List.length_nil]
  · intro hp
    rw [hdepth]
    simp only [PersistentID.depth, (PersistentID.is_empty_iff _).1 hp, List.length_nil]
  · intro hwf hne
    constructor
    · have hs := PersistentID.instancer_pid_slots p storage hne
      have hd := p.persistent_id_.drop_cons 0 (by decide)
      rw [List.drop_zero] at hd
      simp only [PersistentID.is_empty] at hne
      unfold PersistentID.well_formed at hwf
      rw [hd, padding_of_cons_ne _ _ hne] at hwf
      unfold PersistentID.well_formed
      rw [hs, padding_of_append_max]
      intro v hv
      rcases List.mem_append.1 hv with h1 | h1
      · exact hwf v h1
      · exact List.mem_singleton.1 h1
    · have hpos : p.depth ≠ 0 := by
        intro h0
        exact hne ((PersistentID.is_empty_iff _).2 (List.length_eq_zero.1 h0))
      omega

theorem C13_well_formed_instancer_pid_witness :
    pid_2_0.well_formed ∧ (pid_2_0.instancer_pid storage_junk).well_formed ∧
    (pid_2_0.instancer_pid storage_junk).depth + 1 = pid_2_0.depth ∧
    (pid_empty.instancer_pid storage_junk).depth = 0 :=
  ⟨by decide,
    ((C13_well_formed_instancer_pid pid_2_0 storage_junk).2.2 (by decide) (by decide)).1,
    ((C13_well_formed_instancer_pid pid_2_0 storage_junk).2.2 (by decide) (by decide)).2,
    (C13_well_formed_instancer_pid pid_empty storage_junk).2.1 (by decide)⟩

/-- C13 (as stated) fails: the default-constructed path built in storage that held
`[11,-7,0,...]` is not well-formed, and neither is the instancer path of the well-formed
empty path built there. -/
theorem C13_default_not_well_formed :
    ¬ (PersistentID.default storage_junk).well_formed ∧
    pid_empty.well_formed ∧ ¬ (pid_empty.instancer_pid storage_junk).well_formed := by
  decide

/-! ## Siblings and the grouping key -/

theorem PersistentID.real_indices_tail (p : PersistentID) (h : ¬ p.is_empty) :
    p.real_indices.tail = real_indices_of (p.persistent_id_.slots.drop 1) := by
  have hd := p.persistent_id_.drop_cons 0 (by decide)
  rw [List.drop_zero] at hd
  simp only [PersistentID.is_empty] at h
  unfold PersistentID.real_indices
  rw [hd, real_indices_of_cons_ne _ _ h]
  simp

theorem PersistentID.same_instancer_iff (a b : PersistentID) (ha : ¬ a.is_empty)
    (hb : ¬ b.is_empty) :
    a.is_from_same_instancer_as b = true ↔
      real_indices_of (a.persistent_id_.slots.drop 1) =
        real_indices_of (b.persistent_id_.slots.drop 1) := by
  have h := eq_loop_iff a.persistent_id_ b.persistent_id_ (array_length_ - 1) 1 rfl
  rw [← h, ← same_instancer_loop_eq]
  simp only [PersistentID.is_empty] at ha hb
  simp [PersistentID.is_from_same_instancer_as, ha, hb]

/-- C14: `is_from_same_instancer_as` is true exactly when neither path is empty and the
two instancer paths are equal under `operator==`. -/
theorem C14_same_instancer_iff_equal_instancer_pid (a b : PersistentID)
    (storage_a storage_b : PIDArray) :
    a.is_from_same_instancer_as b = true ↔
      (¬ a.is_empty ∧ ¬ b.is_empty ∧
        (a.instancer_pid storage_a == b.instancer_pid storage_b) = true) := by
  by_cases ha : a.is_empty
  · have hf : a.is_from_same_instancer_as b = false := by
      simp only [PersistentID.is_empty] at ha
      simp [PersistentID.is_from_same_instancer_as, ha]
    rw [hf]
    constructor
    · intro h; exact absurd h Bool.false_ne_true
    · intro h; exact absurd ha h.1
  · by_cases hb : b.is_empty
    · have hf : a.is_from_same_instancer_as b = false := by
        simp only [PersistentID.is_empty] at hb
        simp [PersistentID.is_from_same_instancer_as, hb]
      rw [hf]
      constructor
      · intro h; exact absurd h Bool.false_ne_true
      · intro h; exact absurd hb h.2.1
    · rw [PersistentID.same_instancer_iff a b ha hb, ← PersistentID.real_indices_tail a ha,
        ← PersistentID.real_indices_tail b hb]
      have hkey : (a.instancer_pid storage_a == b.instancer_pid storage_b) = true ↔
          a.real_indices.tail = b.real_indices.tail := by
        have h := PersistentID.eq_iff_real_indices (a.instancer_pid storage_a)
          (b.instancer_pid storage_b)
        rw [PersistentID.real_indices_instancer_pid,
          PersistentID.real_indices_instancer_pid] at h
        exact h
      rw [hkey]
      constructor
      · intro h; exact ⟨ha, hb, h⟩
      · intro h; exact h.2.2

/-- The examples of C14: `[3,1]` and `[5,1]` are siblings with equal instancer paths;
`[3,1]` and `[3,1,7]` are not siblings and their instancer paths differ; the empty path
is no sibling of itself although its instancer path equals itself. -/
theorem C14_examples :
    pid_3_1.is_from_same_instancer_as pid_5_1 = true ∧
    (pid_3_1.instancer_pid storage_junk == pid_5_1.instancer_pid pid_full.persistent_id_)
      = true ∧
    pid_3_1.is_from_same_instancer_as pid_3_1_7 = false ∧
    (pid_3_1.instancer_pid storage_junk == pid_3_1_7.instancer_pid storage_junk) = false ∧
    pid_empty.is_from_same_instancer_as pid_empty = false ∧
    (pid_empty.instancer_pid storage_junk == pid_empty.instancer_pid storage_junk) = true :=
  ⟨by decide,
    ((C14_same_instancer_iff_equal_instancer_pid pid_3_1 pid_5_1 storage_junk
      pid_full.persistent_id_).1 (by decide)).2.2,
    by decide, by decide, by decide, by decide⟩

/-! ## `operator==` as a key equality -/

/-- C15: `operator==` is reflexive, symmetric and transitive over all contents of the
slots, and paths it relates have the same hash, so it is a lawful key equality for the
map keyed by `PersistentID`. -/
theorem C15_eq_is_equivalence :
    (∀ a : PersistentID, (a == a) = true) ∧
    (∀ a b : PersistentID, (a == b) = true → (b == a) = true) ∧
    (∀ a b c : PersistentID, (a == b) = true → (b == c) = true → (a == c) = true) ∧
    (∀ a b : PersistentID, (a == b) = true → a.hash = b.hash) := by
  refine ⟨?_, ?_, ?_, ?_⟩
  · intro a
    exact (PersistentID.eq_iff_real_indices a a).2 rfl
  · intro a b h
    exact PersistentID.eq_symm a b h
  · intro a b c h1 h2
    exact PersistentID.eq_trans a b c h1 h2
  · intro a b h
    rw [PersistentID.hash_eq_foldl, PersistentID.hash_eq_foldl,
      (PersistentID.eq_iff_real_indices a b).1 h]

theorem C15_eq_is_equivalence_witness :
    (pid_3_1_padded == pid_3_1_padded) = true ∧
    (pid_3_1_padded == pid_3_1) = true ∧
    (pid_3_1_padded == pid_3_1_over storage_junk) = true ∧
    pid_3_1_padded.hash = pid_3_1.hash :=
  ⟨C15_eq_is_equivalence.1 pid_3_1_padded,
    C15_eq_is_equivalence.2.1 pid_3_1 pid_3_1_padded (by decide),
    C15_eq_is_equivalence.2.2.1 pid_3_1_padded pid_3_1 (pid_3_1_over storage_junk)
      (by decide) (by decide),
    C15_eq_is_equivalence.2.2.2 pid_3_1_padded pid_3_1 (by decide)⟩

end blender.io
